import Mathlib

/-!
Verification of the core of a toroidal Game-of-Life simulator.

The source is a TypeScript module exporting `Life.Model`, a data-grid model
that owns two cell matrices (`_data`, the externally readable current
generation, and `_swap`, a scratch buffer), a pluggable step function
(`Model.tick`), and a periodic timer (`start`/`stop`) driving generation
advancement.  This file shallowly embeds that module:

* cell matrices are `List (List Nat)` with cells `0`/`1` (the source's
  `Bit = 1 | 0`, handled as JavaScript numbers);
* the step function `Life.Model.tick` is embedded as explicit state passing
  over the `(input, output, draws-consumed)` triple, with the random source
  `Math.random` modelled as a stream `Nat → ℚ` together with a counter of
  how many draws the computation consumed;
* the `Model` object together with the browser's interval-timer registry is
  embedded as a `World` state machine with events
  start / stop / state-assignment / timer-firing, so that temporal claims
  about stale ticks are statable.
-/

namespace Life

/-- A cell, as in the source's `Model.Bit = 1 | 0`; the source manipulates
bits as JavaScript numbers (truthiness tests, arithmetic sums), so the
embedding uses `Nat` with the live value `1` and the dead value `0`. -/
abbrev Bit := Nat

/-- A generation: a matrix of cells, as in the source's `Bit[][]`. -/
abbrev Gen := List (List Nat)

/-- Predicate: `g` is a rectangular matrix with `r` rows and `c` columns. -/
def Rect (g : Gen) (r c : Nat) : Prop :=
  g.length = r ∧ ∀ row ∈ g, row.length = c

instance (g : Gen) (r c : Nat) : Decidable (Rect g r c) := by
  unfold Rect; infer_instance

/-- Read `g[i][j]` (used only at in-range indices in the source's loops;
the default value is never hit under the rectangularity hypotheses of the
theorems below). -/
def get2 (g : Gen) (i j : Nat) : Nat :=
  (g.getD i []).getD j 0

/-- In-place update `g[i][j] = v` of the source, as a functional update. -/
def set2 (g : Gen) (i j : Nat) (v : Nat) : Gen :=
  g.set i ((g.getD i []).set j v)

namespace Model

/-- The body of the source's rule chain for one cell, for `alive = input[i][j]`
and `neighbors` the neighbor sum; `cell` starts at `0` and the first matching
branch assigns it.  The branches are transcribed literally, including the
JavaScript operator precedence of the second one:
`alive && neighbors === 2 || neighbors === 3` parses as
`(alive && neighbors === 2) || (neighbors === 3)`. -/
def baseCell (alive : Nat) (neighbors : Nat) : Nat :=
  if alive ≠ 0 ∧ neighbors < 2 then 0
  else if (alive ≠ 0 ∧ neighbors = 2) ∨ neighbors = 3 then 1
  else if alive ≠ 0 ∧ 3 < neighbors then 0
  else if alive = 0 ∧ neighbors = 3 then 1
  else 0

/-- The source's neighbor sum for cell `(i, j)`: wrapped coordinates
`decX/decY/incX/incY` computed by the conditional expressions of the source
(`i >= 1 ? i - 1 : lastRow`, etc.), then the sum of the eight reads. -/
def neighborCount (input : Gen) (i j : Nat) : Nat :=
  let lastRow := input.length - 1
  let lastCol := (input.headD []).length - 1
  let decX := if 1 ≤ i then i - 1 else lastRow
  let decY := if 1 ≤ j then j - 1 else lastCol
  let incX := if i + 1 ≤ lastRow then i + 1 else 0
  let incY := if j + 1 ≤ lastCol then j + 1 else 0
  get2 input decX decY + get2 input i decY + get2 input incX decY +
  get2 input decX j + get2 input incX j +
  get2 input decX incY + get2 input i incY + get2 input incX incY

/-- The value the loop body writes into `output[i][j]`: the base rule result,
then — only when `fluctuation` is truthy (nonzero) — a draw from the random
stream is consumed and, if it is below `fluctuation`, the cell is flipped
(`cell = 1 - cell`).  `k` is the index of the next unconsumed draw. -/
def cellWrite (input : Gen) (fluctuation : ℚ) (rng : Nat → ℚ) (k i j : Nat) : Nat :=
  let base := baseCell (get2 input i j) (neighborCount input i j)
  if fluctuation ≠ 0 then (if rng k < fluctuation then 1 - base else base) else base

/-- How many draws the loop body consumes at one cell: one when `fluctuation`
is truthy (the source evaluates `Math.random()` exactly then, thanks to the
short-circuit of `fluctuation && Math.random() < fluctuation`), none
otherwise. -/
def bumpDraws (fluctuation : ℚ) (k : Nat) : Nat :=
  if fluctuation ≠ 0 then k + 1 else k

/-- The nested loops of `Model.tick`, flattened into one pass over the
row-major list of cell coordinates.  The state is the triple
`(input, output, draws consumed)`; the loop body never assigns to `input`
and updates `output[i][j]` with `cellWrite`. -/
def tickCells (fluctuation : ℚ) (rng : Nat → ℚ) :
    List (Nat × Nat) → Gen × Gen × Nat → Gen × Gen × Nat
  | [], st => st
  | p :: rest, (inp, out, k) =>
      tickCells fluctuation rng rest
        (inp, set2 out p.1 p.2 (cellWrite inp fluctuation rng k p.1 p.2),
         bumpDraws fluctuation k)

/-- Row-major cell coordinates `(i, j)` for `i < rows`, `j < cols`, in the
order of the source's two nested `for` loops. -/
def cellIndices (rows cols : Nat) : List (Nat × Nat) :=
  (List.range rows).flatMap fun i => (List.range cols).map fun j => (i, j)

/-- Embedding of `Life.Model.tick` of the source: `rows = input.length`,
`columns = input[0].length`, then the nested loops writing `output[i][j]`.
Returns the final `(input, output, draws consumed)` state. -/
def tick (input output : Gen) (fluctuation : ℚ) (rng : Nat → ℚ) : Gen × Gen × Nat :=
  tickCells fluctuation rng
    (cellIndices input.length (input.headD []).length) (input, output, 0)

end Model

/-- The fields of a `Life.Model` object.  The two matrices are JavaScript
array objects, mutated and swapped by reference; to make aliasing statable,
each buffer value is paired with an allocation identity (`dataId`, `swapId`),
and `nextAlloc` is the allocation clock: every object allocated so far has an
identity `< nextAlloc`, and a fresh allocation (the `JSON.parse(JSON.stringify …)`
deep copy in the `state` setter) takes the clock's value and advances it.
`started` holds the interval-timer handle returned by `window.setInterval`
(always `≥ 1`), or `0` when no timer is scheduled (the source relies on the
truthiness of `this._started`). -/
structure ModelState where
  data : Gen
  swapBuf : Gen
  dataId : Nat
  swapId : Nat
  nextAlloc : Nat
  started : Nat
  deriving DecidableEq, Repr

/-- A `Life.Model` together with the browser's interval-timer registry.
`closures` lists the live interval callbacks: each carries the timer handle
it was registered under and the current value of the `swap` boolean that the
`start` that created it captured (`let swap = false`).  `clearInterval`
removes an entry; a callback can only fire while its entry is live.
`nextTimer` models the browser's supply of fresh timer handles (positive,
never reused). -/
structure World where
  model : ModelState
  closures : List (Nat × Bool)
  nextTimer : Nat
  deriving DecidableEq, Repr

/-- Embedding of `Life.Model.stop`: when `this._started` is truthy, `clearInterval` it
(remove the callback from the registry) and set `this._started = 0`;
otherwise do nothing. -/
def wStop (w : World) : World :=
  if w.model.started ≠ 0 then
    { w with
      closures := w.closures.filter fun c => c.1 ≠ w.model.started,
      model := { w.model with started := 0 } }
  else w

/-- The `state` setter of `Life.Model`: stop if started, then
`this._data = state` (the caller's object, identity `gid`) and
`this._swap = JSON.parse(JSON.stringify(state))` — a freshly allocated deep
copy with the same cell values.  No validation of any kind is performed. -/
def wSetState (w : World) (gid : Nat) (g : Gen) : World :=
  let w1 := if w.model.started ≠ 0 then wStop w else w
  { w1 with
    model := { w1.model with
      data := g, dataId := gid,
      swapBuf := g, swapId := w1.model.nextAlloc,
      nextAlloc := w1.model.nextAlloc + 1 } }

/-- Embedding of `Life.Model.start`: `let swap = false`; stop if already started; then
`this._started = window.setInterval(callback, interval)` — a fresh positive
timer handle whose callback owns the captured `swap` flag. -/
def wStart (w : World) : World :=
  let w1 := if w.model.started ≠ 0 then wStop w else w
  { w1 with
    closures := w1.closures ++ [(w1.nextTimer, false)],
    nextTimer := w1.nextTimer + 1,
    model := { w1.model with started := w1.nextTimer } }

/-- One firing of the interval callback registered under timer handle `t`.
A handle that is not live in the registry never fires (that is what
`clearInterval` guarantees in the single-threaded browser model).  The body
is the source's: flip the captured `swap` flag; when it becomes true, swap
the `_data`/`_swap` references; then `this._tick(this._swap, this._data)` —
the default tick with `fluctuation` omitted (0), so the random stream is
irrelevant and a constant stream is passed. -/
def fireTimer (w : World) (t : Nat) : World :=
  match w.closures.find? (fun c => c.1 = t) with
  | none => w
  | some c =>
      let flag := !c.2
      let m := w.model
      let m1 := if flag then
          { m with data := m.swapBuf, swapBuf := m.data,
                   dataId := m.swapId, swapId := m.dataId }
        else m
      let ticked := Model.tick m1.swapBuf m1.data 0 (fun _ => 0)
      { w with
        model := { m1 with data := ticked.2.1 },
        closures := w.closures.map fun c' => if c'.1 = t then (c'.1, flag) else c' }

/-- The `Life.Model` constructor with an explicit initial generation:
`this.state = options.initial` runs the `state` setter on a model whose
`_started` is still undefined (falsy), so no stop happens; the initial
matrix is the caller's object (identity `gid`) and the scratch buffer is a
fresh deep copy.  No timer is scheduled yet. -/
def initWorld (g : Gen) (gid : Nat) : World :=
  { model :=
      { data := g, swapBuf := g,
        dataId := gid, swapId := gid + 1, nextAlloc := gid + 2,
        started := 0 },
    closures := [],
    nextTimer := 1 }

/-- The externally triggerable events of the model. -/
inductive Ev where
  | start : Ev
  | stop : Ev
  | assign (gid : Nat) (g : Gen) : Ev
  | fire (t : Nat) : Ev
  deriving DecidableEq, Repr

/-- Apply one event. -/
def stepEv (w : World) : Ev → World
  | .start => wStart w
  | .stop => wStop w
  | .assign gid g => wSetState w gid g
  | .fire t => fireTimer w t

/-- Reachability by sequences of events satisfying `P`. -/
inductive ReachG (P : Ev → Prop) (w0 : World) : World → Prop where
  | refl : ReachG P w0 w0
  | step {w : World} {e : Ev} : ReachG P w0 w → P e → ReachG P w0 (stepEv w e)

/-- Event validity used by the dimension-invariant claim: state assignments
install non-empty rectangular matrices (the spec's `replace` admits only
those); the other events are unrestricted. -/
def RectAssign : Ev → Prop
  | .assign _ g => ∃ r c, 1 ≤ r ∧ 1 ≤ c ∧ Rect g r c
  | _ => True

/-- Embedding of `Life.Model.rowCount`: `this._data.length`. -/
def rowCount (m : ModelState) : Nat := m.data.length

/-- Embedding of `Life.Model.columnCount`: `this._data[0].length`. -/
def columnCount (m : ModelState) : Nat := (m.data.headD []).length

/-- JavaScript array subscripting `l[i]` for a possibly negative or
out-of-range index: any index outside `[0, length)` reads an absent property
and yields `undefined` (`none`). -/
def jsIndex {α : Type} (l : List α) (i : Int) : Option α :=
  if 0 ≤ i then l.get? i.toNat else none

/-- The possible outcomes of `Life.Model.data(region, row, column)`, i.e. of
the expression `this._data[row][column]`. -/
inductive ReadResult where
  /-- both subscripts hit: the cell value is returned -/
  | value (v : Nat) : ReadResult
  /-- outcome when `this._data[row]` is an array but `[column]` is absent: the call
  returns `undefined` normally -/
  | undef : ReadResult
  /-- outcome when `this._data[row]` is `undefined`, so subscripting it throws
  `TypeError` -/
  | typeError : ReadResult
  deriving DecidableEq, Repr

/-- Embedding of `Life.Model.data`: evaluate `this._data[row][column]` under JavaScript
semantics.  There is no bounds check in the source. -/
def dataRead (m : ModelState) (row col : Int) : ReadResult :=
  match jsIndex m.data row with
  | none => .typeError
  | some r =>
    match jsIndex r col with
    | none => .undef
    | some v => .value v

/-- The error kinds named by the specification. -/
inductive LifeError where
  | DimensionMismatch : LifeError
  | IndexOutOfBounds : LifeError
  deriving DecidableEq, Repr

/-- Modelled from the spec: the validation of `replace(newGeneration)` —
"validates `newGeneration` is non-empty and rectangular (all rows equal
length)", failing fast with `DimensionMismatch` otherwise.  This operation
does not exist in the source (the `state` setter installs anything); it is
the spec-side contract the setter is compared against. -/
def replaceSpec (g : Gen) : Except LifeError Unit :=
  if g ≠ [] ∧ ∀ row ∈ g, row.length = (g.headD []).length then .ok ()
  else .error .DimensionMismatch

/-- Modelled from the spec: the contract of `read(row, col)` — "returns the
Cell at `current[row][col]`. Fails with OutOfBounds if indices are outside
[0, rows) × [0, cols)."  This bounds-checking read does not exist in the
source; it is the spec-side contract `Life.Model.data` is compared
against. -/
def readSpec (m : ModelState) (row col : Int) : Except LifeError Nat :=
  if 0 ≤ row ∧ row < (rowCount m : Int) ∧ 0 ≤ col ∧ col < (columnCount m : Int) then
    .ok (get2 m.data row.toNat col.toNat)
  else .error .IndexOutOfBounds

/-- The canonical toroidal Conway neighbor count of the claim: the sum of
the 8 neighbor cells reached by wrapping row and column indices modulo `r`
and `c`; the decremented coordinate is `(i + (r - 1)) % r` and the
incremented one `(i + 1) % r`, likewise for columns. -/
def toroidalNeighbors (g : Gen) (r c i j : Nat) : Nat :=
  let up := (i + (r - 1)) % r
  let down := (i + 1) % r
  let left := (j + (c - 1)) % c
  let right := (j + 1) % c
  get2 g up left + get2 g i left + get2 g down left +
  get2 g up j + get2 g down j +
  get2 g up right + get2 g i right + get2 g down right

/-- The canonical Conway rule of the claim: the output cell is alive iff
(the input cell is alive and its toroidal neighbor count is 2 or 3) or
(the input cell is dead and its toroidal neighbor count is exactly 3). -/
def conwayRule (g : Gen) (r c i j : Nat) : Nat :=
  let n := toroidalNeighbors g r c i j
  if (get2 g i j ≠ 0 ∧ (n = 2 ∨ n = 3)) ∨ (get2 g i j = 0 ∧ n = 3) then 1 else 0

/-- A vertical blinker centered on a 5×5 grid (period-2 oscillator). -/
def blinkerV : Gen :=
  [[0,0,0,0,0],[0,0,1,0,0],[0,0,1,0,0],[0,0,1,0,0],[0,0,0,0,0]]

/-- The horizontal phase of the same blinker. -/
def blinkerH : Gen :=
  [[0,0,0,0,0],[0,0,0,0,0],[0,1,1,1,0],[0,0,0,0,0],[0,0,0,0,0]]

end Life

namespace Life

/-! ### List-level helper lemmas -/

theorem getD_set_self {α : Type} {l : List α} {i : Nat} {a d : α} (h : i < l.length) :
    (l.set i a).getD i d = a := by
  rw [List.getD_eq_getElem _ _ (by simpa using h)]
  simp

theorem getD_set_ne {α : Type} {l : List α} {i j : Nat} (h : i ≠ j) (a d : α) :
    (l.set i a).getD j d = l.getD j d := by
  rcases Nat.lt_or_ge j l.length with hj | hj
  · rw [List.getD_eq_getElem _ _ (by simpa using hj), List.getD_eq_getElem _ _ hj,
      List.getElem_set_ne h]
  · rw [List.getD_eq_default _ _ (by simpa using hj), List.getD_eq_default _ _ hj]

/-- Characterization of `Rect` through `getD`, the access the embedding uses. -/
theorem rect_iff {g : Gen} {r c : Nat} :
    Rect g r c ↔ g.length = r ∧ ∀ i, i < r → (g.getD i []).length = c := by
  constructor
  · rintro ⟨hl, hrow⟩
    refine ⟨hl, fun i hi => ?_⟩
    rw [List.getD_eq_getElem _ _ (by omega)]
    exact hrow _ (List.getElem_mem _)
  · rintro ⟨hl, hrow⟩
    refine ⟨hl, fun row hrow' => ?_⟩
    obtain ⟨i, hi, rfl⟩ := List.mem_iff_getElem.mp hrow'
    have h := hrow i (by omega)
    rwa [List.getD_eq_getElem _ _ hi] at h

theorem rect_headD_length {g : Gen} {r c : Nat} (hg : Rect g r c) (hr : 1 ≤ r) :
    (g.headD []).length = c := by
  rcases g with _ | ⟨row, tl⟩
  · exact absurd hg.1 (by simpa using by omega)
  · exact hg.2 row (by simp)

theorem rect_set2 {g : Gen} {r c : Nat} (h : Rect g r c) (i j v : Nat) :
    Rect (set2 g i j v) r c := by
  rw [rect_iff] at h ⊢
  refine ⟨by simpa [set2] using h.1, fun i' hi' => ?_⟩
  by_cases hii : i = i'
  · subst hii
    by_cases hlen : i < g.length
    · rw [set2, getD_set_self hlen]
      simpa using h.2 i hi'
    · rw [set2, List.set_eq_of_length_le (by omega)]
      exact h.2 _ hi'
  · rw [set2, getD_set_ne hii]
    exact h.2 _ hi'

theorem get2_set2_self {g : Gen} {r c i j : Nat} (hg : Rect g r c)
    (hi : i < r) (hj : j < c) (v : Nat) :
    get2 (set2 g i j v) i j = v := by
  rw [rect_iff] at hg
  unfold get2 set2
  rw [getD_set_self (by omega), getD_set_self (by rw [hg.2 i hi]; omega)]

theorem get2_set2_ne {g : Gen} {a b i j : Nat} (h : ¬(a = i ∧ b = j)) (v : Nat) :
    get2 (set2 g a b v) i j = get2 g i j := by
  unfold get2 set2
  by_cases ha : a = i
  · subst ha
    have hb : b ≠ j := fun hb => h ⟨rfl, hb⟩
    by_cases hl : a < g.length
    · rw [getD_set_self hl, getD_set_ne hb]
    · rw [List.set_eq_of_length_le (by omega)]
  · rw [getD_set_ne ha]

/-- Extensionality for rectangular matrices through `get2`. -/
theorem gen_ext {a b : Gen} {r c : Nat} (ha : Rect a r c) (hb : Rect b r c)
    (h : ∀ i j, i < r → j < c → get2 a i j = get2 b i j) : a = b := by
  have ha' := rect_iff.mp ha
  have hb' := rect_iff.mp hb
  apply List.ext_getElem (by omega)
  intro i h1 h2
  have hla : (a.getD i []).length = c := ha'.2 i (by omega)
  have hlb : (b.getD i []).length = c := hb'.2 i (by omega)
  rw [List.getD_eq_getElem _ _ h1] at hla
  rw [List.getD_eq_getElem _ _ h2] at hlb
  apply List.ext_getElem (by omega)
  intro j h3 h4
  have := h i j (by omega) (by omega)
  unfold get2 at this
  rwa [List.getD_eq_getElem _ _ h1, List.getD_eq_getElem _ _ h2,
    List.getD_eq_getElem _ _ h3, List.getD_eq_getElem _ _ h4] at this

theorem mem_cellIndices {r c i j : Nat} :
    (i, j) ∈ Model.cellIndices r c ↔ i < r ∧ j < c := by
  simp only [Model.cellIndices, List.mem_flatMap, List.mem_map, List.mem_range,
    Prod.mk.injEq]
  constructor
  · rintro ⟨a, ha, b, hb, rfl, rfl⟩
    exact ⟨ha, hb⟩
  · rintro ⟨hi, hj⟩
    exact ⟨i, hi, j, hj, rfl, rfl⟩

/-! ### Step-function characterization -/

theorem cellWrite_zero (inp : Gen) (rng : Nat → ℚ) (k i j : Nat) :
    Model.cellWrite inp 0 rng k i j
      = Model.baseCell (get2 inp i j) (Model.neighborCount inp i j) := by
  simp [Model.cellWrite]

theorem cellWrite_one {rng : Nat → ℚ} {k : Nat} (inp : Gen) (i j : Nat) (h : rng k < 1) :
    Model.cellWrite inp 1 rng k i j
      = 1 - Model.baseCell (get2 inp i j) (Model.neighborCount inp i j) := by
  simp [Model.cellWrite, h]

theorem baseCell_le_one (a n : Nat) : Model.baseCell a n ≤ 1 := by
  unfold Model.baseCell
  split_ifs <;> omega

theorem cellWrite_le_one (inp : Gen) (f : ℚ) (rng : Nat → ℚ) (k i j : Nat) :
    Model.cellWrite inp f rng k i j ≤ 1 := by
  have hb := baseCell_le_one (get2 inp i j) (Model.neighborCount inp i j)
  simp only [Model.cellWrite]
  split_ifs <;> omega

/-- The literal branch chain of the source equals the canonical Conway rule,
for every cell value and every neighbor count. -/
theorem baseCell_eq_conway (a n : Nat) :
    Model.baseCell a n = if (a ≠ 0 ∧ (n = 2 ∨ n = 3)) ∨ (a = 0 ∧ n = 3) then 1 else 0 := by
  unfold Model.baseCell
  split_ifs <;> omega

/-- The loop never assigns to the input buffer. -/
theorem tickCells_fst (f : ℚ) (rng : Nat → ℚ) :
    ∀ (idxs : List (Nat × Nat)) (st : Gen × Gen × Nat),
      (Model.tickCells f rng idxs st).1 = st.1
  | [], _ => rfl
  | p :: rest, (inp, out, k) => by
      rw [Model.tickCells]
      exact tickCells_fst f rng rest _

/-- The loop preserves the output buffer's dimensions. -/
theorem tickCells_rect (f : ℚ) (rng : Nat → ℚ) {r c : Nat} :
    ∀ (idxs : List (Nat × Nat)) (inp out : Gen) (k : Nat), Rect out r c →
      Rect (Model.tickCells f rng idxs (inp, out, k)).2.1 r c
  | [], _, _, _, h => h
  | p :: rest, inp, out, k, h => by
      rw [Model.tickCells]
      exact tickCells_rect f rng rest _ _ _ (rect_set2 h _ _ _)

/-- A cell no remaining coordinate points at keeps its value. -/
theorem tickCells_untouched (f : ℚ) (rng : Nat → ℚ) {i j : Nat} :
    ∀ (idxs : List (Nat × Nat)) (inp out : Gen) (k : Nat),
      (∀ p ∈ idxs, ¬(p.1 = i ∧ p.2 = j)) →
      get2 (Model.tickCells f rng idxs (inp, out, k)).2.1 i j = get2 out i j
  | [], _, _, _, _ => rfl
  | p :: rest, inp, out, k, h => by
      rw [Model.tickCells]
      rw [tickCells_untouched f rng rest _ _ _ fun q hq => h q (List.mem_cons_of_mem _ hq)]
      exact get2_set2_ne (h p (List.mem_cons_self _ _)) _

/-- A cell some coordinate points at ends up holding the loop body's value
(for some position of the random stream). -/
theorem tickCells_written (f : ℚ) (rng : Nat → ℚ) {r c i j : Nat}
    (hi : i < r) (hj : j < c) :
    ∀ (idxs : List (Nat × Nat)) (inp out : Gen) (k : Nat), Rect out r c →
      (i, j) ∈ idxs →
      ∃ n, get2 (Model.tickCells f rng idxs (inp, out, k)).2.1 i j
        = Model.cellWrite inp f rng n i j
  | [], _, _, _, _, hmem => absurd hmem (List.not_mem_nil _)
  | p :: rest, inp, out, k, hrect, hmem => by
      rw [Model.tickCells]
      by_cases hrest : (i, j) ∈ rest
      · exact tickCells_written f rng hi hj rest _ _ _ (rect_set2 hrect _ _ _) hrest
      · have hp : p = (i, j) := by
          rcases List.mem_cons.mp hmem with h | h
          · exact h.symm
          · exact absurd h hrest
        subst hp
        refine ⟨k, ?_⟩
        rw [tickCells_untouched f rng rest _ _ _ fun q hq hqc => ?_]
        · exact get2_set2_self hrect hi hj _
        · exact hrest (by rcases q with ⟨q1, q2⟩; rcases hqc with ⟨h1, h2⟩; subst h1; subst h2; exact hq)

/-- The final output buffer does not depend on the output buffer's initial
contents at the written coordinates. -/
theorem tickCells_out_congr (f : ℚ) (rng : Nat → ℚ) {r c : Nat} :
    ∀ (idxs : List (Nat × Nat)) (inp out₁ out₂ : Gen) (k : Nat),
      Rect out₁ r c → Rect out₂ r c →
      (∀ i j, i < r → j < c → (i, j) ∉ idxs → get2 out₁ i j = get2 out₂ i j) →
      (Model.tickCells f rng idxs (inp, out₁, k)).2.1
        = (Model.tickCells f rng idxs (inp, out₂, k)).2.1
  | [], inp, out₁, out₂, k, h1, h2, hagree =>
      gen_ext h1 h2 fun i j hi hj => hagree i j hi hj (List.not_mem_nil _)
  | p :: rest, inp, out₁, out₂, k, h1, h2, hagree => by
      rw [Model.tickCells, Model.tickCells]
      apply tickCells_out_congr f rng rest _ _ _ _ (rect_set2 h1 _ _ _) (rect_set2 h2 _ _ _)
      intro i j hi hj hnot
      by_cases hpij : p.1 = i ∧ p.2 = j
      · obtain ⟨hp1, hp2⟩ := hpij
        subst hp1; subst hp2
        rw [get2_set2_self h1 hi hj, get2_set2_self h2 hi hj]
      · rw [get2_set2_ne hpij, get2_set2_ne hpij]
        refine hagree i j hi hj fun hmem => ?_
        rcases List.mem_cons.mp hmem with h | h
        · exact hpij ⟨(congrArg Prod.fst h).symm, (congrArg Prod.snd h).symm⟩
        · exact hnot h

/-- With `fluctuation = 0` the random stream is never read. -/
theorem tickCells_zero_rng (rng rng' : Nat → ℚ) :
    ∀ (idxs : List (Nat × Nat)) (st : Gen × Gen × Nat),
      Model.tickCells 0 rng idxs st = Model.tickCells 0 rng' idxs st
  | [], _ => rfl
  | p :: rest, (inp, out, k) => by
      rw [Model.tickCells, Model.tickCells, cellWrite_zero, ← cellWrite_zero inp rng']
      exact tickCells_zero_rng rng rng' rest _

/-- With `fluctuation = 0` no draw is ever consumed. -/
theorem tickCells_zero_draws (rng : Nat → ℚ) :
    ∀ (idxs : List (Nat × Nat)) (inp out : Gen) (k : Nat),
      (Model.tickCells 0 rng idxs (inp, out, k)).2.2 = k
  | [], _, _, _ => rfl
  | p :: rest, inp, out, k => by
      rw [Model.tickCells]
      have hb : Model.bumpDraws 0 k = k := by simp [Model.bumpDraws]
      rw [hb]
      exact tickCells_zero_draws rng rest _ _ _

/-! ### Toroidal wrap equivalence -/

/-- The source's decrementing conditional equals decrement modulo `r`. -/
theorem decWrap_eq_mod {i r : Nat} (hi : i < r) :
    (if 1 ≤ i then i - 1 else r - 1) = (i + (r - 1)) % r := by
  by_cases h : 1 ≤ i
  · rw [if_pos h, show i + (r - 1) = i - 1 + r by omega, Nat.add_mod_right,
      Nat.mod_eq_of_lt (by omega)]
  · rw [if_neg h, show i + (r - 1) = r - 1 by omega, Nat.mod_eq_of_lt (by omega)]

/-- The source's incrementing conditional equals increment modulo `r`. -/
theorem incWrap_eq_mod {i r : Nat} (hi : i < r) :
    (if i + 1 ≤ r - 1 then i + 1 else 0) = (i + 1) % r := by
  by_cases h : i + 1 ≤ r - 1
  · rw [if_pos h, Nat.mod_eq_of_lt (by omega)]
  · rw [if_neg h, show i + 1 = r by omega, Nat.mod_self]

/-- On a rectangular matrix the source's conditional-wrap neighbor sum is the
canonical modulo-wrap toroidal neighbor sum. -/
theorem neighborCount_eq_toroidal {g : Gen} {r c i j : Nat} (hg : Rect g r c)
    (hr : 1 ≤ r) (hc : 1 ≤ c) (hi : i < r) (hj : j < c) :
    Model.neighborCount g i j = toroidalNeighbors g r c i j := by
  have hlen : g.length = r := hg.1
  have hhead : (g.headD []).length = c := rect_headD_length hg hr
  simp only [Model.neighborCount, toroidalNeighbors, hlen, hhead]
  rw [show (if 1 ≤ i then i - 1 else r - 1) = (i + (r - 1)) % r from decWrap_eq_mod hi,
    show (if 1 ≤ j then j - 1 else c - 1) = (j + (c - 1)) % c from decWrap_eq_mod hj,
    show (if i + 1 ≤ r - 1 then i + 1 else 0) = (i + 1) % r from incWrap_eq_mod hi,
    show (if j + 1 ≤ c - 1 then j + 1 else 0) = (j + 1) % c from incWrap_eq_mod hj]

/-! ### Whole-tick lemmas -/

theorem tick_indices {input : Gen} {r c : Nat} (hin : Rect input r c) (hr : 1 ≤ r)
    (out : Gen) (f : ℚ) (rng : Nat → ℚ) :
    Model.tick input out f rng
      = Model.tickCells f rng (Model.cellIndices r c) (input, out, 0) := by
  rw [Model.tick, hin.1, rect_headD_length hin hr]

theorem tick_get2 {input out : Gen} {r c : Nat} (hr : 1 ≤ r)
    (hin : Rect input r c) (hout : Rect out r c) (f : ℚ) (rng : Nat → ℚ)
    {i j : Nat} (hi : i < r) (hj : j < c) :
    ∃ n, get2 (Model.tick input out f rng).2.1 i j = Model.cellWrite input f rng n i j := by
  rw [tick_indices hin hr out f rng]
  exact tickCells_written f rng hi hj (Model.cellIndices r c)
    input out 0 hout (mem_cellIndices.mpr ⟨hi, hj⟩)

/-! ### Controller/world lemmas -/

theorem wStop_data (w : World) : (wStop w).model.data = w.model.data := by
  unfold wStop; split_ifs <;> rfl

theorem wStop_swapBuf (w : World) : (wStop w).model.swapBuf = w.model.swapBuf := by
  unfold wStop; split_ifs <;> rfl

theorem wStop_nextAlloc (w : World) : (wStop w).model.nextAlloc = w.model.nextAlloc := by
  unfold wStop; split_ifs <;> rfl

theorem wStop_nextTimer (w : World) : (wStop w).nextTimer = w.nextTimer := by
  unfold wStop; split_ifs <;> rfl

theorem wStop_started (w : World) : (wStop w).model.started = 0 := by
  unfold wStop
  split_ifs with h
  · rfl
  · omega

theorem wSetState_data (w : World) (gid : Nat) (g : Gen) :
    (wSetState w gid g).model.data = g := rfl

theorem wSetState_swapBuf (w : World) (gid : Nat) (g : Gen) :
    (wSetState w gid g).model.swapBuf = g := rfl

theorem wSetState_started (w : World) (gid : Nat) (g : Gen) :
    (wSetState w gid g).model.started = 0 := by
  unfold wSetState
  split_ifs with h
  · exact wStop_started w
  · simpa using by omega

theorem wStart_data (w : World) : (wStart w).model.data = w.model.data := by
  unfold wStart
  split_ifs with h
  · exact wStop_data w
  · rfl

theorem wStart_swapBuf (w : World) : (wStart w).model.swapBuf = w.model.swapBuf := by
  unfold wStart
  split_ifs with h
  · exact wStop_swapBuf w
  · rfl

theorem fireTimer_none {w : World} {t : Nat}
    (h : w.closures.find? (fun c => c.1 = t) = none) : fireTimer w t = w := by
  unfold fireTimer
  rw [h]

/-- The cell matrices of the model after a timer firing: no-op when the
handle is dead, otherwise the conditional reference swap followed by the
default tick into the (new) `_data` buffer. -/
theorem fireTimer_model (w : World) (t : Nat) :
    ((fireTimer w t).model.data = w.model.data ∧
     (fireTimer w t).model.swapBuf = w.model.swapBuf) ∨
    (∃ d s : Gen,
      ((d = w.model.data ∧ s = w.model.swapBuf) ∨ (d = w.model.swapBuf ∧ s = w.model.data)) ∧
      (fireTimer w t).model.data = (Model.tick s d 0 (fun _ => 0)).2.1 ∧
      (fireTimer w t).model.swapBuf = s) := by
  unfold fireTimer
  cases hfind : w.closures.find? (fun c => c.1 = t) with
  | none => exact Or.inl ⟨rfl, rfl⟩
  | some c =>
      right
      by_cases hflag : (!c.2) = true
      · exact ⟨w.model.swapBuf, w.model.data, Or.inr ⟨rfl, rfl⟩, by simp [hflag], by simp [hflag]⟩
      · exact ⟨w.model.data, w.model.swapBuf, Or.inl ⟨rfl, rfl⟩, by simp [hflag], by simp [hflag]⟩

/-- Dimension invariant: both buffers are non-empty rectangular matrices of
the same dimensions. -/
def DimsInv (w : World) : Prop :=
  ∃ r c, 1 ≤ r ∧ 1 ≤ c ∧ Rect w.model.data r c ∧ Rect w.model.swapBuf r c

/-- Events other than a state assignment keep the exact dimensions of both
buffers. -/
theorem dims_nonassign {w : World} {r c : Nat} (hr : 1 ≤ r)
    (hd : Rect w.model.data r c) (hs : Rect w.model.swapBuf r c)
    (e : Ev) (he : ∀ gid g, e ≠ .assign gid g) :
    Rect (stepEv w e).model.data r c ∧ Rect (stepEv w e).model.swapBuf r c := by
  cases e with
  | start => rw [stepEv, wStart_data, wStart_swapBuf]; exact ⟨hd, hs⟩
  | stop => rw [stepEv, wStop_data, wStop_swapBuf]; exact ⟨hd, hs⟩
  | assign gid g => exact absurd rfl (he gid g)
  | fire t =>
      rw [stepEv]
      rcases fireTimer_model w t with ⟨h1, h2⟩ | ⟨d, s, hds, h1, h2⟩
      · rw [h1, h2]; exact ⟨hd, hs⟩
      · have hdr : Rect d r c := by rcases hds with ⟨h, _⟩ | ⟨h, _⟩ <;> rw [h] <;> assumption
        have hsr : Rect s r c := by rcases hds with ⟨_, h⟩ | ⟨_, h⟩ <;> rw [h] <;> assumption
        refine ⟨?_, by rw [h2]; exact hsr⟩
        rw [h1, tick_indices hsr hr d 0 (fun _ => 0)]
        exact tickCells_rect 0 (fun _ => 0) (Model.cellIndices r c) s d 0 hdr

theorem dimsInv_step {w : World} {e : Ev} (h : DimsInv w) (he : RectAssign e) :
    DimsInv (stepEv w e) := by
  obtain ⟨r, c, hr, hc, hd, hs⟩ := h
  cases e with
  | assign gid g =>
      obtain ⟨r', c', hr', hc', hg⟩ := he
      exact ⟨r', c', hr', hc', by rw [stepEv, wSetState_data]; exact hg,
        by rw [stepEv, wSetState_swapBuf]; exact hg⟩
  | start => exact ⟨r, c, hr, hc, dims_nonassign hr hd hs .start (by intro _ _ h; cases h)⟩
  | stop => exact ⟨r, c, hr, hc, dims_nonassign hr hd hs .stop (by intro _ _ h; cases h)⟩
  | fire t => exact ⟨r, c, hr, hc, dims_nonassign hr hd hs (.fire t) (by intro _ _ h; cases h)⟩

theorem dimsInv_reach {g0 : Gen} {gid : Nat} {r0 c0 : Nat} (hr0 : 1 ≤ r0) (hc0 : 1 ≤ c0)
    (hg0 : Rect g0 r0 c0) {w : World} (hw : ReachG RectAssign (initWorld g0 gid) w) :
    DimsInv w := by
  induction hw with
  | refl => exact ⟨r0, c0, hr0, hc0, hg0, hg0⟩
  | step hreach he ih => exact dimsInv_step ih he

/-- Timer invariant: fresh handles are positive and strictly increasing, and
the live-callback registry is empty when stopped and exactly the scheduled
handle's callback when running. -/
def TimerInv (w : World) : Prop :=
  1 ≤ w.nextTimer ∧ w.model.started < w.nextTimer ∧
  (w.model.started = 0 → w.closures = []) ∧
  (w.model.started ≠ 0 → ∃ b, w.closures = [(w.model.started, b)])

theorem wStop_closures {w : World} (h : TimerInv w) : (wStop w).closures = [] := by
  unfold wStop
  split_ifs with hs
  · obtain ⟨b, hb⟩ := h.2.2.2 hs
    simp [hb]
  · simpa using h.2.2.1 (by omega)

theorem timerInv_step (w : World) (e : Ev) (h : TimerInv w) : TimerInv (stepEv w e) := by
  obtain ⟨h1, h2, h3, h4⟩ := h
  cases e with
  | start =>
      have hcl : (if w.model.started ≠ 0 then wStop w else w).closures = [] := by
        split_ifs with hs
        · exact wStop_closures ⟨h1, h2, h3, h4⟩
        · exact h3 (by omega)
      have hnt : (if w.model.started ≠ 0 then wStop w else w).nextTimer = w.nextTimer := by
        split_ifs <;> simp [wStop_nextTimer]
      refine ⟨?_, ?_, ?_, ?_⟩ <;>
        simp only [stepEv, wStart, hcl, hnt, List.nil_append]
      · omega
      · omega
      · intro habs; omega
      · intro _; exact ⟨false, rfl⟩
  | stop =>
      refine ⟨?_, ?_, ?_, ?_⟩ <;>
        simp only [stepEv, wStop_nextTimer, wStop_started]
      · omega
      · omega
      · intro _; exact wStop_closures ⟨h1, h2, h3, h4⟩
      · intro habs; omega
  | assign gid g =>
      show TimerInv (wSetState w gid g)
      have hcl : (wSetState w gid g).closures
          = (if w.model.started ≠ 0 then wStop w else w).closures := rfl
      have hnt : (wSetState w gid g).nextTimer = w.nextTimer := by
        unfold wSetState
        split_ifs <;> simp [wStop_nextTimer]
      refine ⟨by omega, ?_, ?_, ?_⟩
      · rw [hnt, wSetState_started]; omega
      · intro _
        rw [hcl]
        split_ifs with hs
        · exact wStop_closures ⟨h1, h2, h3, h4⟩
        · exact h3 (by omega)
      · intro habs
        rw [wSetState_started] at habs
        omega
  | fire t =>
      show TimerInv (fireTimer w t)
      cases hfind : w.closures.find? (fun c => c.1 = t) with
      | none => rw [fireTimer_none hfind]; exact ⟨h1, h2, h3, h4⟩
      | some c =>
          have hcl : (fireTimer w t).closures
              = w.closures.map (fun c' => if c'.1 = t then (c'.1, !c.2) else c') := by
            unfold fireTimer
            rw [hfind]
          have hst : (fireTimer w t).model.started = w.model.started := by
            unfold fireTimer
            rw [hfind]
            by_cases hflag : (!c.2) = true <;> simp [hflag]
          have hnt : (fireTimer w t).nextTimer = w.nextTimer := by
            unfold fireTimer
            rw [hfind]
          refine ⟨by omega, by rw [hst, hnt]; omega, ?_, ?_⟩
          · intro hs
            rw [hst] at hs
            rw [hcl, h3 hs]
            rfl
          · intro hs
            rw [hst] at hs
            obtain ⟨b, hb⟩ := h4 hs
            rw [hcl, hb, hst]
            by_cases ht : w.model.started = t
            · exact ⟨!c.2, by simp [ht]⟩
            · exact ⟨b, by simp [ht]⟩

theorem timerInv_reach {g0 : Gen} {gid : Nat} {w : World}
    (hw : ReachG (fun _ => True) (initWorld g0 gid) w) : TimerInv w := by
  induction hw with
  | refl =>
      refine ⟨by simp [initWorld], by simp [initWorld], fun _ => rfl, fun habs => ?_⟩
      exact absurd rfl habs
  | step hreach he ih => exact timerInv_step _ _ ih

/-! ### Read semantics and remaining setter lemmas -/

theorem wSetState_swapId (w : World) (gid : Nat) (g : Gen) :
    (wSetState w gid g).model.swapId = w.model.nextAlloc := by
  unfold wSetState
  split_ifs with h
  · exact wStop_nextAlloc w
  · rfl

/-- The three possible outcomes of `this._data[row][column]` on a
rectangular matrix: an in-range pair returns the cell, an in-range row with
an out-of-range column returns `undefined`, and an out-of-range row throws a
`TypeError`. -/
theorem dataRead_cases {m : ModelState} {r c : Nat} (hm : Rect m.data r c)
    (row col : Int) :
    ((0 ≤ row ∧ row < (r : Int)) →
      ((0 ≤ col ∧ col < (c : Int)) →
        dataRead m row col = .value (get2 m.data row.toNat col.toNat)) ∧
      (¬(0 ≤ col ∧ col < (c : Int)) → dataRead m row col = .undef)) ∧
    (¬(0 ≤ row ∧ row < (r : Int)) → dataRead m row col = .typeError) := by
  have hlen : m.data.length = r := hm.1
  constructor
  · rintro ⟨hrow0, hrowr⟩
    have h1 : row.toNat < m.data.length := by omega
    have hjrow : jsIndex m.data row = some m.data[row.toNat] := by
      unfold jsIndex
      rw [if_pos hrow0, List.get?_eq_getElem?, List.getElem?_eq_getElem h1]
    have hrowlen : m.data[row.toNat].length = c :=
      hm.2 _ (List.getElem_mem h1)
    constructor
    · rintro ⟨hcol0, hcolc⟩
      have h2 : col.toNat < m.data[row.toNat].length := by omega
      have hjcol : jsIndex m.data[row.toNat] col = some m.data[row.toNat][col.toNat] := by
        unfold jsIndex
        rw [if_pos hcol0, List.get?_eq_getElem?, List.getElem?_eq_getElem h2]
      unfold dataRead
      rw [hjrow]
      dsimp only
      rw [hjcol]
      unfold get2
      rw [List.getD_eq_getElem _ _ h1, List.getD_eq_getElem _ _ h2]
    · intro hcol
      have hjcol : jsIndex m.data[row.toNat] col = none := by
        unfold jsIndex
        split_ifs with h0
        · rw [List.get?_eq_getElem?, List.getElem?_eq_none]
          omega
        · rfl
      unfold dataRead
      rw [hjrow]
      dsimp only
      rw [hjcol]
  · intro hrow
    have hjrow : jsIndex m.data row = none := by
      unfold jsIndex
      split_ifs with h0
      · rw [List.get?_eq_getElem?, List.getElem?_eq_none]
        omega
      · rfl
    unfold dataRead
    rw [hjrow]

theorem fireTimer_of_closures_nil {w : World} (h : w.closures = []) (t : Nat) :
    fireTimer w t = w :=
  fireTimer_none (by rw [h]; rfl)

theorem wSetState_closures_nil {w : World} (h : TimerInv w) (gid : Nat) (g : Gen) :
    (wSetState w gid g).closures = [] := by
  have hcl : (wSetState w gid g).closures
      = (if w.model.started ≠ 0 then wStop w else w).closures := rfl
  rw [hcl]
  split_ifs with hs
  · exact wStop_closures h
  · exact h.2.2.1 (by omega)

theorem wStart_closures {w : World} (h : TimerInv w) :
    (wStart w).closures = [(w.nextTimer, false)] := by
  have hcl : (if w.model.started ≠ 0 then wStop w else w).closures = [] := by
    split_ifs with hs
    · exact wStop_closures h
    · exact h.2.2.1 (by omega)
  have hnt : (if w.model.started ≠ 0 then wStop w else w).nextTimer = w.nextTimer := by
    split_ifs <;> simp [wStop_nextTimer]
  show ((if w.model.started ≠ 0 then wStop w else w).closures
      ++ [((if w.model.started ≠ 0 then wStop w else w).nextTimer, false)])
    = [(w.nextTimer, false)]
  rw [hcl, hnt, List.nil_append]

/-! ### Claim theorems -/

/-- C1: for every non-empty rectangular input generation (R×C, R,C ≥ 1) and
matching output buffer, the default step function with fluctuation 0 writes
at every cell the canonical toroidal Conway rule: alive iff (input cell
alive and modulo-wrapped neighbor count 2 or 3) or (dead and count exactly
3). -/
theorem C1_default_step_toroidal_conway {input output : Gen} {r c : Nat}
    (hr : 1 ≤ r) (hc : 1 ≤ c) (hin : Rect input r c) (hout : Rect output r c)
    (rng : Nat → ℚ) {i j : Nat} (hi : i < r) (hj : j < c) :
    get2 (Model.tick input output 0 rng).2.1 i j = conwayRule input r c i j := by
  obtain ⟨n, hn⟩ := tick_get2 hr hin hout 0 rng hi hj
  rw [hn, cellWrite_zero, baseCell_eq_conway,
    neighborCount_eq_toroidal hin hr hc hi hj]
  rfl

/-- Witness for C1 at a concrete 2×2 input. -/
theorem C1_witness :
    (1 ≤ 2 ∧ Rect [[1, 0], [0, 0]] 2 2 ∧ Rect [[0, 0], [0, 0]] 2 2 ∧ 0 < 2) ∧
    get2 (Model.tick [[1, 0], [0, 0]] [[0, 0], [0, 0]] 0 (fun _ => 0)).2.1 0 0
      = conwayRule [[1, 0], [0, 0]] 2 2 0 0 :=
  ⟨by decide, C1_default_step_toroidal_conway (by decide) (by decide) (by decide)
    (by decide) (fun _ => 0) (by decide) (by decide)⟩

/-- C2: evaluation of the code at the failing input of the claim "each tick
advances the simulation by exactly one generation".  Starting a model on the
vertical blinker and firing the interval callback twice: the first firing
advances to the horizontal blinker, but the second firing leaves the
current generation unchanged (the callback swaps buffers only on every
other firing and recomputes the same generation from the stale buffer),
although one tick-function step of the horizontal blinker is the vertical
blinker again. -/
theorem C2_second_tick_does_not_advance :
    (fireTimer (wStart (initWorld blinkerV 0)) 1).model.data = blinkerH ∧
    (fireTimer (fireTimer (wStart (initWorld blinkerV 0)) 1) 1).model.data = blinkerH ∧
    (Model.tick blinkerH blinkerH 0 (fun _ => 0)).2.1 = blinkerV ∧
    blinkerH ≠ blinkerV :=
  ⟨by decide, by decide, by decide, by decide⟩

/-- C3 counterexample: the claim says installing a jagged replacement fails
fast with DimensionMismatch; the spec-side `replace` validation indeed
rejects the jagged matrix `[[1], [0, 1]]`, but the code's state setter
installs it without any error. -/
theorem C3_jagged_install_succeeds :
    replaceSpec [[1], [0, 1]] = .error .DimensionMismatch ∧
    (wSetState (initWorld [[0]] 0) 5 [[1], [0, 1]]).model.data = [[1], [0, 1]] ∧
    (wSetState (initWorld [[0]] 0) 5 [[1], [0, 1]]).model.swapBuf = [[1], [0, 1]] :=
  ⟨rfl, by decide, by decide⟩

/-- C3 (amended): the state setter performs no validation at all: every
replacement matrix — empty or jagged included — is synchronously installed
as the current generation, with the scratch buffer set to a value-equal deep
copy, and the controller ends stopped. -/
theorem C3_setter_installs_anything (w : World) (gid : Nat) (g : Gen) :
    (wSetState w gid g).model.data = g ∧
    (wSetState w gid g).model.swapBuf = g ∧
    (wSetState w gid g).model.started = 0 :=
  ⟨wSetState_data w gid g, wSetState_swapBuf w gid g, wSetState_started w gid g⟩

/-- C4 counterexample: the claim says every out-of-range read fails with
IndexOutOfBounds.  On the 2×2 model, reading `(0, 5)` — column out of range —
returns `undefined` with no error at all (while the spec-side `read` rejects
it with IndexOutOfBounds), and reading `(2, 0)` — row out of range — throws
a TypeError, not an IndexOutOfBounds error. -/
theorem C4_out_of_range_read_not_oob :
    dataRead (initWorld [[0, 1], [1, 0]] 0).model 0 5 = .undef ∧
    readSpec (initWorld [[0, 1], [1, 0]] 0).model 0 5 = .error .IndexOutOfBounds ∧
    dataRead (initWorld [[0, 1], [1, 0]] 0).model 2 0 = .typeError :=
  ⟨by decide, rfl, by decide⟩

/-- C4 (amended): the cell read is unchecked: for `row ∈ [0, rowCount)` and
`col ∈ [0, columnCount)` it returns `current[row][col]`; for `row` in range
and `col` out of range it returns `undefined` without failing; for `row` out
of range it throws a TypeError — in no case an IndexOutOfBounds error. -/
theorem C4_read_semantics {m : ModelState} {r c : Nat} (hr : 1 ≤ r) (hc : 1 ≤ c)
    (hm : Rect m.data r c) (row col : Int) :
    ((0 ≤ row ∧ row < (r : Int)) →
      ((0 ≤ col ∧ col < (c : Int)) →
        dataRead m row col = .value (get2 m.data row.toNat col.toNat)) ∧
      (¬(0 ≤ col ∧ col < (c : Int)) → dataRead m row col = .undef)) ∧
    (¬(0 ≤ row ∧ row < (r : Int)) → dataRead m row col = .typeError) ∧
    rowCount m = r ∧ columnCount m = c := by
  obtain ⟨h1, h2⟩ := dataRead_cases hm row col
  exact ⟨h1, h2, hm.1, rect_headD_length hm hr⟩

/-- Witness for C4's amended statement on a concrete 1×2 model. -/
theorem C4_witness :
    (1 ≤ 1 ∧ 1 ≤ 2 ∧ Rect (initWorld [[0, 1]] 0).model.data 1 2) ∧
    (((0 : Int) ≤ 0 ∧ (0 : Int) < (1 : Nat) →
      ((0 : Int) ≤ 0 ∧ (0 : Int) < (2 : Nat) →
        dataRead (initWorld [[0, 1]] 0).model 0 0
          = .value (get2 (initWorld [[0, 1]] 0).model.data (0 : Int).toNat (0 : Int).toNat)) ∧
      (¬((0 : Int) ≤ 0 ∧ (0 : Int) < (2 : Nat)) →
        dataRead (initWorld [[0, 1]] 0).model 0 0 = .undef)) ∧
    (¬((0 : Int) ≤ 0 ∧ (0 : Int) < (1 : Nat)) →
      dataRead (initWorld [[0, 1]] 0).model 0 0 = .typeError) ∧
    rowCount (initWorld [[0, 1]] 0).model = 1 ∧
    columnCount (initWorld [[0, 1]] 0).model = 2) :=
  ⟨by decide, C4_read_semantics (by decide) (by decide) (by decide) 0 0⟩

/-- C5: in every state reachable from construction on a non-empty
rectangular generation by state assignments (of non-empty rectangular
matrices — the only replacements the spec admits), start, tick firings and
stop, the scratch buffer has dimensions identical to the current buffer,
and no event other than a state assignment changes those dimensions. -/
theorem C5_dimension_invariant {g0 : Gen} {gid r0 c0 : Nat} (hr0 : 1 ≤ r0)
    (hc0 : 1 ≤ c0) (hg0 : Rect g0 r0 c0) {w : World}
    (hw : ReachG RectAssign (initWorld g0 gid) w) :
    ∃ r c, 1 ≤ r ∧ 1 ≤ c ∧ Rect w.model.data r c ∧ Rect w.model.swapBuf r c ∧
      ∀ e : Ev, (∀ gid2 g2, e ≠ .assign gid2 g2) →
        Rect (stepEv w e).model.data r c ∧ Rect (stepEv w e).model.swapBuf r c := by
  obtain ⟨r, c, hr, hc, hd, hs⟩ := dimsInv_reach hr0 hc0 hg0 hw
  exact ⟨r, c, hr, hc, hd, hs, fun e he => dims_nonassign hr hd hs e he⟩

/-- Witness for C5 at the freshly constructed 1×1 world. -/
theorem C5_witness :
    (1 ≤ 1 ∧ Rect [[1]] 1 1) ∧
    (∃ r c, 1 ≤ r ∧ 1 ≤ c ∧
      Rect (initWorld [[1]] 0).model.data r c ∧
      Rect (initWorld [[1]] 0).model.swapBuf r c ∧
      ∀ e : Ev, (∀ gid2 g2, e ≠ .assign gid2 g2) →
        Rect (stepEv (initWorld [[1]] 0) e).model.data r c ∧
        Rect (stepEv (initWorld [[1]] 0) e).model.swapBuf r c) :=
  ⟨⟨by decide, by decide⟩,
    @C5_dimension_invariant [[1]] 0 1 1 (by decide) (by decide) (by decide)
      (initWorld [[1]] 0) ReachG.refl⟩

/-- C6: assigning a new (non-empty rectangular) state to a running
controller lands it stopped, every subsequent in-range cell read returns
exactly the replacement's value, and the scratch buffer is a deep copy of
the replacement: equal cell values but a distinct object identity. -/
theorem C6_assign_while_running {w : World} (hrun : w.model.started ≠ 0)
    {gid : Nat} (halloc : gid < w.model.nextAlloc) {g : Gen} {r c : Nat}
    (hr : 1 ≤ r) (hc : 1 ≤ c) (hg : Rect g r c) :
    (wSetState w gid g).model.started = 0 ∧
    (∀ row col : Int, 0 ≤ row → row < (r : Int) → 0 ≤ col → col < (c : Int) →
      dataRead (wSetState w gid g).model row col
        = .value (get2 g row.toNat col.toNat)) ∧
    (wSetState w gid g).model.swapBuf = g ∧
    (wSetState w gid g).model.swapId ≠ gid := by
  have hdata : (wSetState w gid g).model.data = g := wSetState_data w gid g
  refine ⟨wSetState_started w gid g, ?_, wSetState_swapBuf w gid g, ?_⟩
  · intro row col h1 h2 h3 h4
    have hcases := dataRead_cases (m := (wSetState w gid g).model) (by rw [hdata]; exact hg) row col
    rw [hdata] at hcases
    exact (hcases.1 ⟨h1, h2⟩).1 ⟨h3, h4⟩
  · rw [wSetState_swapId]
    omega

/-- Witness for C6: a started 1×1 world, replaced by `[[0]]`. -/
theorem C6_witness :
    ((wStart (initWorld [[1]] 0)).model.started ≠ 0 ∧
      0 < (wStart (initWorld [[1]] 0)).model.nextAlloc ∧ Rect [[0]] 1 1) ∧
    ((wSetState (wStart (initWorld [[1]] 0)) 0 [[0]]).model.started = 0 ∧
      (∀ row col : Int, 0 ≤ row → row < (1 : Nat) → 0 ≤ col → col < (1 : Nat) →
        dataRead (wSetState (wStart (initWorld [[1]] 0)) 0 [[0]]).model row col
          = .value (get2 [[0]] row.toNat col.toNat)) ∧
      (wSetState (wStart (initWorld [[1]] 0)) 0 [[0]]).model.swapBuf = [[0]] ∧
      (wSetState (wStart (initWorld [[1]] 0)) 0 [[0]]).model.swapId ≠ 0) :=
  ⟨⟨by decide, by decide, by decide⟩,
    C6_assign_while_running (by decide) (by decide) (by decide) (by decide) (by decide)⟩

/-- C7: at every reachable point at most one periodic timer is live, and a
previously scheduled tick never fires after a stop — whether the stop is
direct, implicit in a state assignment, or the implicit stop of a re-entrant
start (after which only the freshly scheduled handle, not any previously
live one, can fire). -/
theorem C7_no_stale_ticks {g0 : Gen} {gid : Nat} {w : World}
    (hw : ReachG (fun _ => True) (initWorld g0 gid) w) :
    w.closures.length ≤ 1 ∧
    (∀ t, fireTimer (wStop w) t = wStop w) ∧
    (∀ t gid2 g2, fireTimer (wSetState w gid2 g2) t = wSetState w gid2 g2) ∧
    (∀ t b, (t, b) ∈ w.closures → fireTimer (wStart w) t = wStart w) := by
  have hinv := timerInv_reach hw
  obtain ⟨h1, h2, h3, h4⟩ := hinv
  refine ⟨?_, ?_, ?_, ?_⟩
  · by_cases hs : w.model.started = 0
    · rw [h3 hs]; simp
    · obtain ⟨b, hb⟩ := h4 hs
      rw [hb]; simp
  · exact fun t => fireTimer_of_closures_nil (wStop_closures ⟨h1, h2, h3, h4⟩) t
  · exact fun t gid2 g2 =>
      fireTimer_of_closures_nil (wSetState_closures_nil ⟨h1, h2, h3, h4⟩ gid2 g2) t
  · intro t b hmem
    have hs : w.model.started ≠ 0 := by
      intro hs0
      rw [h3 hs0] at hmem
      exact absurd hmem (List.not_mem_nil _)
    obtain ⟨b', hb'⟩ := h4 hs
    have ht : t = w.model.started := by
      rw [hb'] at hmem
      rcases List.mem_singleton.mp hmem with h
      exact congrArg Prod.fst h
    apply fireTimer_none
    rw [wStart_closures ⟨h1, h2, h3, h4⟩]
    have : w.nextTimer ≠ t := by omega
    simp [List.find?, this]

/-- Witness for C7 at the freshly constructed world. -/
theorem C7_witness :
    (initWorld [[1]] 0).closures.length ≤ 1 ∧
    (∀ t, fireTimer (wStop (initWorld [[1]] 0)) t = wStop (initWorld [[1]] 0)) ∧
    (∀ t gid2 g2, fireTimer (wSetState (initWorld [[1]] 0) gid2 g2) t
      = wSetState (initWorld [[1]] 0) gid2 g2) ∧
    (∀ t b, (t, b) ∈ (initWorld [[1]] 0).closures →
      fireTimer (wStart (initWorld [[1]] 0)) t = wStart (initWorld [[1]] 0)) :=
  C7_no_stale_ticks ReachG.refl

/-- C8: with fluctuation 1 and every uniform draw triggering (each draw
below 1, as `Math.random` guarantees), the step function produces at every
cell the bitwise complement of the fluctuation-0 result on the same
input. -/
theorem C8_fluctuation_one_complements {input out0 out1 : Gen} {r c : Nat}
    (hr : 1 ≤ r) (hc : 1 ≤ c) (hin : Rect input r c)
    (hout0 : Rect out0 r c) (hout1 : Rect out1 r c)
    (rng0 rng1 : Nat → ℚ) (hdraw : ∀ k, rng1 k < 1)
    {i j : Nat} (hi : i < r) (hj : j < c) :
    get2 (Model.tick input out1 1 rng1).2.1 i j
      = 1 - get2 (Model.tick input out0 0 rng0).2.1 i j := by
  obtain ⟨n1, h1⟩ := tick_get2 hr hin hout1 1 rng1 hi hj
  obtain ⟨n0, h0⟩ := tick_get2 hr hin hout0 0 rng0 hi hj
  rw [h1, h0, cellWrite_zero, cellWrite_one input i j (hdraw n1)]

/-- Witness for C8 at a concrete 2×2 input with the constant-zero stream. -/
theorem C8_witness :
    (∀ k : Nat, (fun _ : Nat => (0 : ℚ)) k < 1) ∧
    get2 (Model.tick [[1, 0], [0, 0]] [[0, 0], [0, 0]] 1 (fun _ => 0)).2.1 0 0
      = 1 - get2 (Model.tick [[1, 0], [0, 0]] [[0, 0], [0, 0]] 0 (fun _ => 0)).2.1 0 0 :=
  ⟨fun _ => by norm_num,
    @C8_fluctuation_one_complements [[1, 0], [0, 0]] [[0, 0], [0, 0]] [[0, 0], [0, 0]]
      2 2 (by decide) (by decide) (by decide) (by decide) (by decide)
      (fun _ => 0) (fun _ => 0) (fun _ => by norm_num) 0 0 (by decide) (by decide)⟩

/-- C9: on non-aliased same-dimension buffers, for any fluctuation in
[0, 1], the step function leaves the input buffer unchanged, preserves the
output's dimensions, writes every output cell (the result is independent of
the output's prior contents), and every written value is a bit. -/
theorem C9_populates_output_preserves_input {input out : Gen} {r c : Nat}
    (hr : 1 ≤ r) (hc : 1 ≤ c) (hin : Rect input r c) (hout : Rect out r c)
    (f : ℚ) (hf0 : 0 ≤ f) (hf1 : f ≤ 1) (rng : Nat → ℚ) :
    (Model.tick input out f rng).1 = input ∧
    Rect (Model.tick input out f rng).2.1 r c ∧
    (∀ out2 : Gen, Rect out2 r c →
      (Model.tick input out2 f rng).2.1 = (Model.tick input out f rng).2.1) ∧
    (∀ i j, i < r → j < c →
      get2 (Model.tick input out f rng).2.1 i j = 0 ∨
      get2 (Model.tick input out f rng).2.1 i j = 1) := by
  refine ⟨?_, ?_, ?_, ?_⟩
  · rw [tick_indices hin hr out f rng]
    exact tickCells_fst f rng _ _
  · rw [tick_indices hin hr out f rng]
    exact tickCells_rect f rng _ _ _ _ hout
  · intro out2 hout2
    rw [tick_indices hin hr out f rng, tick_indices hin hr out2 f rng]
    apply tickCells_out_congr f rng _ _ _ _ _ hout2 hout
    intro i j hi hj hnot
    exact absurd (mem_cellIndices.mpr ⟨hi, hj⟩) hnot
  · intro i j hi hj
    obtain ⟨n, hn⟩ := tick_get2 hr hin hout f rng hi hj
    have := cellWrite_le_one input f rng n i j
    omega

/-- Witness for C9 at a concrete 2×2 input with fluctuation 0. -/
theorem C9_witness :
    ((0 : ℚ) ≤ 0 ∧ (0 : ℚ) ≤ 1 ∧ Rect [[1, 0], [0, 0]] 2 2) ∧
    ((Model.tick [[1, 0], [0, 0]] [[0, 0], [0, 0]] 0 (fun _ => 0)).1 = [[1, 0], [0, 0]] ∧
    Rect (Model.tick [[1, 0], [0, 0]] [[0, 0], [0, 0]] 0 (fun _ => 0)).2.1 2 2 ∧
    (∀ out2 : Gen, Rect out2 2 2 →
      (Model.tick [[1, 0], [0, 0]] out2 0 (fun _ => 0)).2.1
        = (Model.tick [[1, 0], [0, 0]] [[0, 0], [0, 0]] 0 (fun _ => 0)).2.1) ∧
    (∀ i j, i < 2 → j < 2 →
      get2 (Model.tick [[1, 0], [0, 0]] [[0, 0], [0, 0]] 0 (fun _ => 0)).2.1 i j = 0 ∨
      get2 (Model.tick [[1, 0], [0, 0]] [[0, 0], [0, 0]] 0 (fun _ => 0)).2.1 i j = 1)) :=
  ⟨⟨by norm_num, by norm_num, by decide⟩,
    C9_populates_output_preserves_input (by decide) (by decide) (by decide) (by decide)
      0 (by norm_num) (by norm_num) (fun _ => 0)⟩

/-- C10: with fluctuation 0 — the value the controller's tick loop always
passes — the default step function consults no random draw at all (zero
draws consumed) and is deterministic: the whole result is identical for any
two random streams. -/
theorem C10_zero_fluctuation_deterministic (input output : Gen)
    (rng rng' : Nat → ℚ) :
    Model.tick input output 0 rng = Model.tick input output 0 rng' ∧
    (Model.tick input output 0 rng).2.2 = 0 := by
  unfold Model.tick
  exact ⟨tickCells_zero_rng rng rng' _ _, tickCells_zero_draws rng _ _ _ _⟩

end Life


